import Mathlib

/-
Verification of the Twinkle CLI build-lifecycle core against its
natural-language specification.

The development shallowly embeds three parts of the Go source:

  * the error normalizer collectProcessingErrors / formatProcessingErrors
    (internal/cli/output.go),
  * the human-readable renderer printBuildResponse (internal/cli/output.go),
  * the poll/backoff engine pollBuildStatus (internal/cli/build.go),
  * the BuildID JSON codec (internal/api types file).

Conventions of the embedding:
  * Go map[string]interface{} values are modelled as association lists
    (first binding wins, matching Go map semantics whose keys are unique);
  * Go time.Time / time.Duration are modelled as Int nanoseconds;
  * lipgloss styling is modelled as the identity on text (it only wraps
    a string in colour escapes); formatted timestamps are carried as the
    already-formatted strings, since no claim concerns time formatting;
  * fallible Go functions returning (T, error) are modelled with Except.
-/

namespace TwinkleCLI

/-- Dynamic JSON-like value, modelling the Go interface{} values found in
the ProcessingErrors tree: strings, numbers, booleans, null, sequences and
string-keyed mappings.  A mapping is carried as its list of bindings; the
Go map semantics (unique keys, first binding authoritative) is recovered
through lookupField and dedupFields below. -/
inductive JValue where
  | str (s : String)
  | num (n : Int)
  | bool (b : Bool)
  | null
  | arr (items : List JValue)
  | obj (fields : List (String × JValue))

/-- Go map read values[key]: the first binding for the key, if any. -/
def lookupField : List (String × JValue) → String → Option JValue
  | [], _ => none
  | (k, v) :: rest, key => if k = key then some v else lookupField rest key

/-- Keep the first binding of every key, dropping later duplicates; on the
image of a Go map this is the identity up to ordering. -/
def dedupFields : List (String × JValue) → List (String × JValue)
  | [] => []
  | kv :: rest => kv :: dedupFields (rest.filter (fun p => p.1 != kv.1))
termination_by l => l.length
decreasing_by
  simp only [List.length_cons]
  have h := List.length_filter_le (fun p : String × JValue => p.1 != kv.1) rest
  omega

/-- Go sort.Strings over the map keys, carried on the bindings themselves:
sort the (key, value) bindings by key.  With unique keys this is exactly
iterating the sorted key slice and indexing the map. -/
def sortFields (fields : List (String × JValue)) : List (String × JValue) :=
  List.insertionSort (fun a b => a.1 ≤ b.1) fields

/-- The child key accumulation of collectProcessingErrors:
nextPrefix := key if the accumulated path is empty, else path + "." + key. -/
def dotJoin (path key : String) : String :=
  if path = "" then key else path ++ "." ++ key

/-- Scalar leaves: the string the Go type switch prints for them
(string verbatim; fmt.Sprint for the default case). -/
def scalarRepr : JValue → Option String
  | .str s => some s
  | .num n => some (toString n)
  | .bool b => some (if b then "true" else "false")
  | .null => some "<nil>"
  | .arr _ => none
  | .obj _ => none

/-- Leaf emission: "<path>: <scalar>" under a non-empty accumulated path,
else the bare scalar. -/
def emitLeaf (path s : String) : List String :=
  if path = "" then [s] else [path ++ ": " ++ s]

theorem sizeOf_snd_lt_of_mem {kv : String × JValue}
    {l : List (String × JValue)} (h : kv ∈ l) :
    sizeOf kv.2 < sizeOf (JValue.obj l) := by
  have h1 : sizeOf kv < sizeOf l := List.sizeOf_lt_of_mem h
  obtain ⟨k, v⟩ := kv
  simp only [JValue.obj.sizeOf_spec]
  simp only [Prod.mk.sizeOf_spec] at h1
  omega

theorem sizeOf_lt_of_mem_arr {v : JValue} {l : List JValue} (h : v ∈ l) :
    sizeOf v < sizeOf (JValue.arr l) := by
  have h1 : sizeOf v < sizeOf l := List.sizeOf_lt_of_mem h
  simp only [JValue.arr.sizeOf_spec]
  omega

theorem mem_of_mem_dedupFields {kv : String × JValue} :
    ∀ {l : List (String × JValue)}, kv ∈ dedupFields l → kv ∈ l
  | [], h => by simp [dedupFields] at h
  | kv' :: rest, h => by
    rw [dedupFields] at h
    rcases List.mem_cons.mp h with h1 | h1
    · exact h1 ▸ List.mem_cons_self _ _
    · exact List.mem_cons_of_mem _
        (List.mem_of_mem_filter (mem_of_mem_dedupFields h1))
termination_by l => l.length
decreasing_by
  simp only [List.length_cons]
  have h := List.length_filter_le (fun p : String × JValue => p.1 != kv'.1) rest
  omega

theorem mem_of_mem_sortFields {kv : String × JValue}
    {l : List (String × JValue)} (h : kv ∈ sortFields l) : kv ∈ l :=
  (List.perm_insertionSort _ l).mem_iff.mp h

theorem sizeOf_filter_le (p : String × JValue → Bool) :
    ∀ l : List (String × JValue), sizeOf (l.filter p) ≤ sizeOf l := by
  intro l
  induction l with
  | nil => simp
  | cons a as ih =>
    cases hpa : p a with
    | true =>
      simp only [List.filter_cons, hpa, if_true, List.cons.sizeOf_spec]
      omega
    | false =>
      simp only [List.filter_cons, hpa, Bool.false_eq_true, if_false,
        List.cons.sizeOf_spec]
      omega

theorem sizeOf_dedupFields_le :
    ∀ l : List (String × JValue), sizeOf (dedupFields l) ≤ sizeOf l := by
  intro l
  induction l using dedupFields.induct with
  | case1 => simp [dedupFields]
  | case2 kv rest ih =>
    rw [dedupFields]
    have hf := sizeOf_filter_le (fun p => p.1 != kv.1) rest
    simp only [List.cons.sizeOf_spec]
    omega

theorem perm_sizeOf_eq {l₁ l₂ : List (String × JValue)}
    (h : l₁.Perm l₂) : sizeOf l₁ = sizeOf l₂ := by
  induction h with
  | nil => rfl
  | cons a _ ih => simp only [List.cons.sizeOf_spec]; omega
  | swap a b l => simp only [List.cons.sizeOf_spec]; omega
  | trans _ _ ih₁ ih₂ => omega

theorem sizeOf_sortFields_eq (l : List (String × JValue)) :
    sizeOf (sortFields l) = sizeOf l :=
  perm_sizeOf_eq (List.perm_insertionSort _ l)

/-
The error normalizer collectProcessingErrors from internal/cli/output.go,
by structural recursion on the tree:

  * a mapping whose "message" entry is a string emits a single line
    ("<step>: <message>" when a non-empty string "step" entry co-exists,
    else the bare message) and never recurses;
  * any other mapping is traversed with its keys in ascending sorted order,
    the path extended with dotJoin;
  * a sequence is traversed element-wise under the unchanged path
    (Go has twin cases for []interface{} and []string with identical
    behaviour; one constructor covers both);
  * a scalar emits one leaf line.

collectSortedFields and collectSeq are the loop bodies of the two
traversals.
-/
mutual

def collectProcessingErrors : JValue → String → List String
  | .obj fields, path =>
    match lookupField fields "message" with
    | some (.str message) =>
      match lookupField fields "step" with
      | some (.str step) =>
        if step = "" then [message] else [step ++ ": " ++ message]
      | _ => [message]
    | _ => collectSortedFields (sortFields (dedupFields fields)) path
  | .arr items, path => collectSeq items path
  | .str s, path => emitLeaf path s
  | .num n, path => emitLeaf path (toString n)
  | .bool b, path => emitLeaf path (if b then "true" else "false")
  | .null, path => emitLeaf path "<nil>"
termination_by v _ => sizeOf v
decreasing_by
  · rw [sizeOf_sortFields_eq]
    have := sizeOf_dedupFields_le fields
    simp only [JValue.obj.sizeOf_spec]
    omega
  · simp only [JValue.arr.sizeOf_spec]; omega

def collectSortedFields : List (String × JValue) → String → List String
  | [], _ => []
  | (k, v) :: rest, path =>
    collectProcessingErrors v (dotJoin path k) ++ collectSortedFields rest path
termination_by l _ => sizeOf l
decreasing_by
  · simp only [List.cons.sizeOf_spec, Prod.mk.sizeOf_spec]; omega
  · simp only [List.cons.sizeOf_spec]; omega

def collectSeq : List JValue → String → List String
  | [], _ => []
  | v :: rest, path => collectProcessingErrors v path ++ collectSeq rest path
termination_by l _ => sizeOf l
decreasing_by
  · simp only [List.cons.sizeOf_spec]; omega
  · simp only [List.cons.sizeOf_spec]; omega

end

/-- formatProcessingErrors from internal/cli/output.go: flatten the tree
from an empty path; an empty result is replaced by the sentinel line. -/
def formatProcessingErrors (fields : List (String × JValue)) : List String :=
  let lines := collectProcessingErrors (.obj fields) ""
  if lines.isEmpty then ["unknown error"] else lines

/-
Leaves of a ProcessingErrors tree, as the specification speaks of them:
a scalar is a leaf, a mapping carrying a string "message" entry is a leaf,
every other mapping or sequence contributes the leaves of its children
(children of a mapping being the values of its distinct keys).  This
definition is written from the wording of the specification, to be
compared with the traversal above.
-/
mutual

def leafCount : JValue → Nat
  | .obj fields =>
    match lookupField fields "message" with
    | some (.str _) => 1
    | _ => leafCountFields (dedupFields fields)
  | .arr items => leafCountSeq items
  | .str _ => 1
  | .num _ => 1
  | .bool _ => 1
  | .null => 1
termination_by v => sizeOf v
decreasing_by
  · have := sizeOf_dedupFields_le fields
    simp only [JValue.obj.sizeOf_spec]
    omega
  · simp only [JValue.arr.sizeOf_spec]; omega

def leafCountFields : List (String × JValue) → Nat
  | [] => 0
  | (_, v) :: rest => leafCount v + leafCountFields rest
termination_by l => sizeOf l
decreasing_by
  · simp only [List.cons.sizeOf_spec, Prod.mk.sizeOf_spec]; omega
  · simp only [List.cons.sizeOf_spec]; omega

def leafCountSeq : List JValue → Nat
  | [] => 0
  | v :: rest => leafCount v + leafCountSeq rest
termination_by l => sizeOf l
decreasing_by
  · simp only [List.cons.sizeOf_spec]; omega
  · simp only [List.cons.sizeOf_spec]; omega

end

theorem length_collectSortedFields (l : List (String × JValue)) (path : String) :
    (collectSortedFields l path).length =
      (l.map (fun kv =>
        (collectProcessingErrors kv.2 (dotJoin path kv.1)).length)).sum := by
  induction l with
  | nil => simp [collectSortedFields]
  | cons kv rest ih =>
    obtain ⟨k, v⟩ := kv
    simp [collectSortedFields, ih]

theorem length_collectSeq (l : List JValue) (path : String) :
    (collectSeq l path).length =
      (l.map (fun v => (collectProcessingErrors v path).length)).sum := by
  induction l with
  | nil => simp [collectSeq]
  | cons v rest ih => simp [collectSeq, ih]

theorem leafCountFields_eq_sum (l : List (String × JValue)) :
    leafCountFields l = (l.map (fun kv => leafCount kv.2)).sum := by
  induction l with
  | nil => simp [leafCountFields]
  | cons kv rest ih =>
    obtain ⟨k, v⟩ := kv
    simp [leafCountFields, ih]

theorem leafCountSeq_eq_sum (l : List JValue) :
    leafCountSeq l = (l.map leafCount).sum := by
  induction l with
  | nil => simp [leafCountSeq]
  | cons v rest ih => simp [leafCountSeq, ih]

/-- Unfolding: the message shortcut branch of the mapping case. -/
theorem collect_obj_shortcut {fields : List (String × JValue)} {m : String}
    (path : String) (hm : lookupField fields "message" = some (.str m)) :
    collectProcessingErrors (.obj fields) path =
      match lookupField fields "step" with
      | some (.str step) => if step = "" then [m] else [step ++ ": " ++ m]
      | _ => [m] := by
  simp only [collectProcessingErrors, hm]

/-- Unfolding: a mapping without a string "message" entry is an ordinary
mapping, traversed in sorted key order. -/
theorem collect_obj_ordinary {fields : List (String × JValue)}
    (path : String) (hm : ∀ m, lookupField fields "message" ≠ some (.str m)) :
    collectProcessingErrors (.obj fields) path =
      collectSortedFields (sortFields (dedupFields fields)) path := by
  cases hm' : lookupField fields "message" with
  | none => simp only [collectProcessingErrors, hm']
  | some mv =>
    cases mv with
    | str m => exact absurd hm' (hm m)
    | num _ => simp only [collectProcessingErrors, hm']
    | bool _ => simp only [collectProcessingErrors, hm']
    | null => simp only [collectProcessingErrors, hm']
    | arr _ => simp only [collectProcessingErrors, hm']
    | obj _ => simp only [collectProcessingErrors, hm']

/-- The shortcut branch always emits exactly one line. -/
theorem collect_obj_shortcut_length {fields : List (String × JValue)}
    {m : String} (path : String)
    (hm : lookupField fields "message" = some (.str m)) :
    (collectProcessingErrors (.obj fields) path).length = 1 := by
  rw [collect_obj_shortcut path hm]
  cases hs : lookupField fields "step" with
  | none => rfl
  | some sv =>
    cases sv with
    | str st => split <;> (try split) <;> rfl
    | num _ => rfl
    | bool _ => rfl
    | null => rfl
    | arr _ => rfl
    | obj _ => rfl

/-- The flattening emits exactly one line per leaf of the tree. -/
theorem length_collectProcessingErrors (v : JValue) :
    ∀ path, (collectProcessingErrors v path).length = leafCount v := by
  intro path
  cases v with
  | str s => simp only [collectProcessingErrors, leafCount, emitLeaf]; split <;> rfl
  | num n => simp only [collectProcessingErrors, leafCount, emitLeaf]; split <;> rfl
  | bool b => simp only [collectProcessingErrors, leafCount, emitLeaf]; split <;> rfl
  | null => simp only [collectProcessingErrors, leafCount, emitLeaf]; split <;> rfl
  | arr items =>
    simp only [collectProcessingErrors, leafCount]
    rw [length_collectSeq, leafCountSeq_eq_sum]
    have hcong : ∀ w ∈ items,
        (collectProcessingErrors w path).length = leafCount w :=
      fun w hw => length_collectProcessingErrors w path
    rw [List.map_congr_left hcong]
  | obj fields =>
    cases hm : lookupField fields "message" with
    | some mv =>
      cases mv with
      | str m =>
        rw [collect_obj_shortcut_length path hm]
        simp only [leafCount, hm]
      | num _ =>
        rw [collect_obj_ordinary path (by simp [hm])]
        simp only [leafCount, hm]
        rw [length_collectSortedFields, leafCountFields_eq_sum]
        have hcong : ∀ kv ∈ sortFields (dedupFields fields),
            (collectProcessingErrors kv.2 (dotJoin path kv.1)).length =
              leafCount kv.2 :=
          fun kv hkv => length_collectProcessingErrors kv.2 (dotJoin path kv.1)
        rw [List.map_congr_left hcong]
        exact ((List.perm_insertionSort _ _).map _).sum_eq
      | bool _ =>
        rw [collect_obj_ordinary path (by simp [hm])]
        simp only [leafCount, hm]
        rw [length_collectSortedFields, leafCountFields_eq_sum]
        have hcong : ∀ kv ∈ sortFields (dedupFields fields),
            (collectProcessingErrors kv.2 (dotJoin path kv.1)).length =
              leafCount kv.2 :=
          fun kv hkv => length_collectProcessingErrors kv.2 (dotJoin path kv.1)
        rw [List.map_congr_left hcong]
        exact ((List.perm_insertionSort _ _).map _).sum_eq
      | null =>
        rw [collect_obj_ordinary path (by simp [hm])]
        simp only [leafCount, hm]
        rw [length_collectSortedFields, leafCountFields_eq_sum]
        have hcong : ∀ kv ∈ sortFields (dedupFields fields),
            (collectProcessingErrors kv.2 (dotJoin path kv.1)).length =
              leafCount kv.2 :=
          fun kv hkv => length_collectProcessingErrors kv.2 (dotJoin path kv.1)
        rw [List.map_congr_left hcong]
        exact ((List.perm_insertionSort _ _).map _).sum_eq
      | arr _ =>
        rw [collect_obj_ordinary path (by simp [hm])]
        simp only [leafCount, hm]
        rw [length_collectSortedFields, leafCountFields_eq_sum]
        have hcong : ∀ kv ∈ sortFields (dedupFields fields),
            (collectProcessingErrors kv.2 (dotJoin path kv.1)).length =
              leafCount kv.2 :=
          fun kv hkv => length_collectProcessingErrors kv.2 (dotJoin path kv.1)
        rw [List.map_congr_left hcong]
        exact ((List.perm_insertionSort _ _).map _).sum_eq
      | obj _ =>
        rw [collect_obj_ordinary path (by simp [hm])]
        simp only [leafCount, hm]
        rw [length_collectSortedFields, leafCountFields_eq_sum]
        have hcong : ∀ kv ∈ sortFields (dedupFields fields),
            (collectProcessingErrors kv.2 (dotJoin path kv.1)).length =
              leafCount kv.2 :=
          fun kv hkv => length_collectProcessingErrors kv.2 (dotJoin path kv.1)
        rw [List.map_congr_left hcong]
        exact ((List.perm_insertionSort _ _).map _).sum_eq
    | none =>
      rw [collect_obj_ordinary path (by simp [hm])]
      simp only [leafCount, hm]
      rw [length_collectSortedFields, leafCountFields_eq_sum]
      have hcong : ∀ kv ∈ sortFields (dedupFields fields),
          (collectProcessingErrors kv.2 (dotJoin path kv.1)).length =
            leafCount kv.2 :=
        fun kv hkv => length_collectProcessingErrors kv.2 (dotJoin path kv.1)
      rw [List.map_congr_left hcong]
      exact ((List.perm_insertionSort _ _).map _).sum_eq
termination_by sizeOf v
decreasing_by
  all_goals
    first
      | exact sizeOf_lt_of_mem_arr hw
      | exact sizeOf_snd_lt_of_mem
          (mem_of_mem_dedupFields (mem_of_mem_sortFields hkv))

theorem lookupField_filter_ne {k k' : String} (hne : k' ≠ k) :
    ∀ l : List (String × JValue),
      lookupField (l.filter (fun p => p.1 != k)) k' = lookupField l k' := by
  intro l
  induction l with
  | nil => rfl
  | cons a rest ih =>
    obtain ⟨ak, av⟩ := a
    by_cases hak : ak = k
    · have hpred : ((ak, av).1 != k) = false := by simp [hak]
      have hak' : ak ≠ k' := fun h => hne (h ▸ hak ▸ rfl)
      simp only [List.filter_cons, hpred, Bool.false_eq_true, if_false]
      rw [ih]
      simp only [lookupField, if_neg hak']
    · have hpred : ((ak, av).1 != k) = true := by simp [hak]
      simp only [List.filter_cons, hpred, if_true]
      by_cases hk' : ak = k'
      · simp only [lookupField, if_pos hk']
      · simp only [lookupField, if_neg hk', ih]

/-- Every binding surviving deduplication is the authoritative (first)
binding of its key in the original list. -/
theorem lookupField_of_mem_dedupFields {kv : String × JValue} :
    ∀ {l : List (String × JValue)}, kv ∈ dedupFields l →
      lookupField l kv.1 = some kv.2 := by
  intro l
  induction l using dedupFields.induct with
  | case1 => intro h; simp [dedupFields] at h
  | case2 kv' rest ih =>
    intro h
    rw [dedupFields] at h
    rcases List.mem_cons.mp h with h1 | h1
    · subst h1
      simp [lookupField]
    · obtain ⟨k', v'⟩ := kv'
      have hmemf : kv ∈ rest.filter (fun p => p.1 != k') :=
        mem_of_mem_dedupFields h1
      have hne : kv.1 ≠ k' := by
        have := List.of_mem_filter hmemf
        simpa using this
      have hne' : ¬ (k' = kv.1) := fun hh => hne hh.symm
      simp only [lookupField, if_neg hne']
      rw [← lookupField_filter_ne hne rest]
      exact ih h1

/-- Keys listed by deduplication, in first-occurrence order; their sorted
version is exactly the key sequence the Go loop iterates. -/
def objKeys (fields : List (String × JValue)) : List String :=
  (dedupFields fields).map Prod.fst

/- ------------------------------------------------------------------ -/
/- The human-readable renderer printBuildResponse (internal/cli/output.go)
   and its helpers.  Styled writers are modelled as the plain text lines
   they print: Status/Statusf prepend a dimmed middle dot, Success a
   check mark, Error a cross, ErrorDetail an indented arrow. -/

/-- BuildMetadata (internal/api types): optional descriptive fields plus
the ProcessingErrors tree (a Go map, possibly nil/empty ~ []). -/
structure BuildMetadata where
  buildVersion : Option String
  buildNumber : Option String
  buildSize : Option Int
  minimumSystemVersion : Option String
  processingErrors : List (String × JValue)
  signature : Option String

/-- Build (internal/api types): status, identifiers and optional metadata.
The updated-at timestamp is carried as its RFC3339 rendering. -/
structure Build where
  buildNumber : Option String
  id : Int
  metadata : Option BuildMetadata
  status : String
  updatedAt : String
  version : Option String

/-- Appcast (internal/api types). -/
structure Appcast where
  feedURL : String
  message : String
  publishedAt : Option String
  status : String
  url : Option String

/-- BuildResponse (internal/api types): one Build, one Appcast, and the
optional server-suggested poll interval in milliseconds. -/
structure BuildResponse where
  appcast : Appcast
  build : Build
  pollAfterMs : Option Int

/-- formatBuildValue from internal/cli/output.go. -/
def formatBuildValue (status : String) (value : Option String) : String :=
  match value with
  | some v => if v = "" then (if status = "processing" then "pending" else "n/a") else v
  | none => if status = "processing" then "pending" else "n/a"

/-- Round-half-to-even of bytes * 100 / 2 ^ shift, the exact value Go's
%.2f prints for float64(bytes) / 2 ^ shift (division by a power of two is
exact in binary floating point for sizes below 2 ^ 53). -/
def round2 (bytes : Int) (shift : Nat) : Int :=
  let num := bytes * 100
  let den : Int := 2 ^ shift
  let q := num / den
  let r := num % den
  let half := den / 2
  if half < r then q + 1
  else if r < half then q
  else if q % 2 = 0 then q else q + 1

/-- Fixed two-decimal rendering of a value given in hundredths. -/
def fmtCents (cents : Int) : String :=
  let frac := cents % 100
  toString (cents / 100) ++ "." ++
    (if frac < 10 then "0" ++ toString frac else toString frac)

/-- formatBytes from internal/cli/output.go. -/
def formatBytes (bytes : Int) : String :=
  if 1073741824 ≤ bytes then fmtCents (round2 bytes 30) ++ " GB"
  else if 1048576 ≤ bytes then fmtCents (round2 bytes 20) ++ " MB"
  else if 1024 ≤ bytes then fmtCents (round2 bytes 10) ++ " KB"
  else toString bytes ++ " bytes"

/-- formatKeys from internal/cli/output.go: the map keys joined with a
comma.  Go iterates the map in unspecified order; the model fixes the
first-occurrence binding order. -/
def formatKeys (values : List (String × JValue)) : String :=
  String.intercalate ", " (objKeys values)

/-- One optional "<label><value>" line for a present optional field. -/
def optLine (label : String) (value : Option String) : List String :=
  match value with
  | some v => [label ++ v]
  | none => []

/-- The header line of printBuildResponse: the switch on the build status
(Successf / Errorf / Statusf each prepend their marker glyph). -/
def buildHeader (b : Build) : String :=
  if b.status = "available" then "✓ Build " ++ (toString b.id ++ " processed")
  else if b.status = "failed" then "✕ Build " ++ (toString b.id ++ " failed")
  else "· Build " ++ (toString b.id ++ " is " ++ b.status)

/-- The verbose detail block of printBuildResponse (build fields and the
metadata sub-block). -/
def verboseBuildLines (b : Build) : List String :=
  ["  Version: " ++ formatBuildValue b.status b.version,
   "  Build Number: " ++ formatBuildValue b.status b.buildNumber,
   "  Updated: " ++ b.updatedAt]
  ++ match b.metadata with
     | none => []
     | some m =>
       ("  Metadata:" ++ "") ::
       (optLine "    Build Version: " m.buildVersion
        ++ optLine "    Build Number: " m.buildNumber
        ++ optLine "    Build Size: " (m.buildSize.map formatBytes)
        ++ optLine "    Minimum System: " m.minimumSystemVersion
        ++ optLine "    Signature: " m.signature
        ++ (if m.processingErrors.isEmpty then []
            else ["    Processing Errors: " ++ formatKeys m.processingErrors]))

/-- The failed branch of printBuildResponse: one ErrorDetail line per
normalized diagnostic, guarded by a present metadata carrying a non-empty
ProcessingErrors map; then return (the appcast switch is never reached). -/
def failedDiagLines (md : Option BuildMetadata) : List String :=
  match md with
  | some m =>
    if m.processingErrors.isEmpty then []
    else (formatProcessingErrors m.processingErrors).map (fun l => "  ↳ " ++ l)
  | none => []

/-- The appcast section of printBuildResponse: the switch on the appcast
status, then the verbose appcast details. -/
def appcastLines (a : Appcast) (verbose : Bool) : List String :=
  [if a.status = "published" then "✓ Feed updated: " ++ a.feedURL
   else if a.status = "waiting_manual" then "· Awaiting manual publication" ++ ""
   else "· Appcast status: " ++ a.status]
  ++ (if verbose then
        ["  Message: " ++ a.message, "  Feed URL: " ++ a.feedURL]
        ++ optLine "  Published At: " a.publishedAt
        ++ optLine "  URL: " a.url
      else [])

/-- printBuildResponse from internal/cli/output.go, as the list of lines
it writes: header, optional verbose block, then either the failed-build
diagnostics (with an early return) or the appcast section. -/
def printBuildResponse (resp : BuildResponse) (verbose : Bool) : List String :=
  [buildHeader resp.build]
  ++ (if verbose then verboseBuildLines resp.build else [])
  ++ (if resp.build.status = "failed" then failedDiagLines resp.build.metadata
      else appcastLines resp.appcast verbose)

/-- Replace the appcast component of a response. -/
def withAppcast (resp : BuildResponse) (a : Appcast) : BuildResponse :=
  { resp with appcast := a }

/-- A diagnostic (ErrorDetail) line is recognised by its four-character
marker "  ↳ ". -/
def isDiag (s : String) : Bool :=
  match s.data with
  | ' ' :: ' ' :: '↳' :: ' ' :: _ => true
  | _ => false

/-- The diagnostic lines of a rendering. -/
def diagLines (lines : List String) : List String :=
  lines.filter (fun l => isDiag l)

theorem isDiag_iff (s : String) :
    isDiag s = true ↔ ∃ rest, s.data = ' ' :: ' ' :: '↳' :: ' ' :: rest := by
  unfold isDiag
  split
  · rename_i rest heq
    simp only [true_iff]
    exact ⟨rest, heq⟩
  · rename_i hno
    simp only [Bool.false_eq_true, false_iff]
    rintro ⟨rest, hr⟩
    exact hno rest hr

theorem isDiag_errorDetail (s : String) : isDiag ("  ↳ " ++ s) = true := by
  rw [isDiag_iff]
  refine ⟨s.data, ?_⟩
  rw [String.data_append "  ↳ " s]
  rfl

theorem isDiag_false_of_third {label : String} {c₁ c₂ c₃ : Char}
    {tl : List Char} (hdata : label.data = c₁ :: c₂ :: c₃ :: tl)
    (hc : ¬(c₁ = ' ' ∧ c₂ = ' ' ∧ c₃ = '↳')) (s : String) :
    isDiag (label ++ s) = false := by
  rw [Bool.eq_false_iff]
  intro htrue
  obtain ⟨rest, hr⟩ := (isDiag_iff _).mp htrue
  rw [String.data_append label s, hdata] at hr
  simp only [List.cons_append, List.cons.injEq] at hr
  exact hc ⟨hr.1, hr.2.1, hr.2.2.1⟩

/-- Distinct strings: two appended lines whose literal heads start with
different characters. -/
theorem append_ne_of_head {a b : String} {c d : Char}
    {ta tb : List Char} (hda : a.data = c :: ta) (hdb : b.data = d :: tb)
    (hcd : c ≠ d) (s t : String) : a ++ s ≠ b ++ t := by
  intro h
  have hdata := congrArg String.data h
  rw [String.data_append a s, String.data_append b t, hda, hdb] at hdata
  simp only [List.cons_append, List.cons.injEq] at hdata
  exact hcd hdata.1

/- ------------------------------------------------------------------ -/
/- The poll/backoff engine pollBuildStatus (internal/cli/build.go).

   The environment of one loop iteration — the outcome of the status
   query, the two clock readings the iteration takes (time.Now().After at
   the deadline check, time.Until inside the clamp block) and which arm
   of the final select fires — is supplied as a PollStep.  The loop is
   folded over the list of such steps; running out of steps while the
   loop would continue models an ongoing (indefinite) poll and yields
   none.  Times and durations are Int nanoseconds. -/

/-- Result of one status query (WaitBuild / WaitBuildByURL). -/
inductive QueryResult where
  | ok (resp : BuildResponse)
  | fail (msg : String)

/-- Environment of one iteration of the poll loop. -/
structure PollStep where
  result : QueryResult
  now1 : Int
  now2 : Int
  cancelled : Bool

/-- The error channel of the poll loop: a failed status query (aborting
the wait with that failure) or context cancellation during the sleep. -/
inductive PollError where
  | queryFailed (msg : String)
  | ctxCancelled

/-- Outcome of one iteration: either the loop returns, or it sleeps for
the computed duration and runs another iteration. -/
inductive IterOutcome where
  | done (r : Except PollError BuildResponse)
  | sleep (d : Int)

/-- The next wait the loop computes before clamping: the server-supplied
PollAfterMs (milliseconds, scaled to nanoseconds) when present and
strictly positive, else the nominal interval. -/
def desiredWait (resp : BuildResponse) (interval : Int) : Int :=
  match resp.pollAfterMs with
  | some pam => if 0 < pam then pam * 1000000 else interval
  | none => interval

/-- One iteration of the pollBuildStatus loop body, faithful to the Go
control flow: query; non-"processing" status returns the response; a set,
elapsed deadline returns the response; otherwise compute the next wait
(server-supplied PollAfterMs when positive, else the nominal interval,
clamped to the time remaining until the deadline, returning the response
when none remains) and sleep, cancellably. -/
def pollIter (deadline : Option Int) (interval : Int) (step : PollStep) :
    IterOutcome :=
  match step.result with
  | .fail e => .done (.error (.queryFailed e))
  | .ok resp =>
    if resp.build.status ≠ "processing" then .done (.ok resp)
    else
      match deadline with
      | some d =>
        if d < step.now1 then .done (.ok resp)
        else
          let base := desiredWait resp interval
          let remaining := d - step.now2
          if remaining ≤ 0 then .done (.ok resp)
          else
            let next := if remaining < base then remaining else base
            if step.cancelled then .done (.error .ctxCancelled) else .sleep next
      | none =>
        if step.cancelled then .done (.error .ctxCancelled)
        else .sleep (desiredWait resp interval)

/-- The poll loop: iterate pollIter over the supplied steps; none means
the loop is still polling after consuming every supplied step. -/
def pollLoop (deadline : Option Int) (interval : Int) :
    List PollStep → Option (Except PollError BuildResponse)
  | [] => none
  | step :: rest =>
    match pollIter deadline interval step with
    | .done r => some r
    | .sleep _ => pollLoop deadline interval rest

/-- pollBuildStatus from internal/cli/build.go: a deadline is set only
for a strictly positive timeout (timeoutSeconds * 1s past entry time),
then the loop runs. -/
def pollBuildStatus (now0 timeoutSeconds interval : Int)
    (steps : List PollStep) : Option (Except PollError BuildResponse) :=
  pollLoop (if 0 < timeoutSeconds then some (now0 + timeoutSeconds * 1000000000) else none)
    interval steps

/- ------------------------------------------------------------------ -/
/- The BuildID JSON codec (internal/api types file). -/

/-- The raw JSON token handed to BuildID's UnmarshalJSON, already
classified by its first byte as the Go code does: null, a quoted string
(after unescaping), or a numeric literal. -/
inductive JsonTok where
  | null
  | str (s : String)
  | num (lit : String)

/-- Decimal integer parsing shared by strconv.Atoi (string input path)
and json.Number.Int64 / strconv.ParseInt (numeric path): an optional
sign followed by one or more digits; anything else is a parse failure.
The model is exact below the int64 overflow threshold, which no claim
approaches. -/
def digitsVal (cs : List Char) : Option Nat :=
  if cs.isEmpty then none
  else
    cs.foldl
      (fun acc c =>
        match acc with
        | none => none
        | some n => if c.isDigit then some (n * 10 + (c.toNat - 48)) else none)
      (some 0)

def goAtoi (s : String) : Option Int :=
  match s.data with
  | [] => none
  | '+' :: rest => (digitsVal rest).map (fun n => (n : Int))
  | '-' :: rest => (digitsVal rest).map (fun n => -(n : Int))
  | cs => (digitsVal cs).map (fun n => (n : Int))

/-- BuildID.UnmarshalJSON: null leaves the value unchanged; a quoted
string is parsed with Atoi; a numeric literal via json.Number.Int64.
Parse failures surface as errors. -/
def buildIDUnmarshal (data : JsonTok) (cur : Int) : Except String Int :=
  match data with
  | .null => .ok cur
  | .str s =>
    match goAtoi s with
    | some v => .ok v
    | none => .error ("parse build id " ++ s)
  | .num lit =>
    match goAtoi lit with
    | some v => .ok v
    | none => .error ("parse build id " ++ lit)

/-- BuildID.MarshalJSON: always the bare integer literal. -/
def buildIDMarshal (v : Int) : JsonTok :=
  .num (toString v)

/- ------------------------------------------------------------------ -/
/- Basic facts about single poll iterations. -/

theorem pollIter_fail (deadline : Option Int) (interval : Int)
    {s : PollStep} {e : String} (h : s.result = .fail e) :
    pollIter deadline interval s = .done (.error (.queryFailed e)) := by
  simp [pollIter, h]

theorem pollIter_terminal (deadline : Option Int) (interval : Int)
    {s : PollStep} {resp : BuildResponse} (h : s.result = .ok resp)
    (hst : resp.build.status ≠ "processing") :
    pollIter deadline interval s = .done (.ok resp) := by
  simp [pollIter, h, hst]

theorem pollIter_elapsed {d : Int} (interval : Int)
    {s : PollStep} {resp : BuildResponse} (h : s.result = .ok resp)
    (hproc : resp.build.status = "processing") (helapsed : d < s.now1) :
    pollIter (some d) interval s = .done (.ok resp) := by
  simp [pollIter, h, hproc, helapsed]

theorem pollIter_processing_sleep (interval : Int)
    {s : PollStep} {resp : BuildResponse} (h : s.result = .ok resp)
    (hproc : resp.build.status = "processing") (hnc : s.cancelled = false) :
    pollIter none interval s = .sleep (desiredWait resp interval) := by
  simp [pollIter, h, hproc, hnc]

theorem pollIter_cancelled_none (interval : Int)
    {s : PollStep} {resp : BuildResponse} (h : s.result = .ok resp)
    (hproc : resp.build.status = "processing") (hc : s.cancelled = true) :
    pollIter none interval s = .done (.error .ctxCancelled) := by
  simp [pollIter, h, hproc, hc]

theorem pollIter_clean_not_error (deadline : Option Int) (interval : Int)
    {s : PollStep} (hnf : ∀ e, s.result ≠ .fail e) (hnc : s.cancelled = false) :
    ∀ er, pollIter deadline interval s ≠ .done (.error er) := by
  intro er h
  cases hres : s.result with
  | fail e => exact hnf e hres
  | ok resp =>
    simp only [pollIter, hres, hnc, Bool.false_eq_true, if_false] at h
    by_cases hst : resp.build.status ≠ "processing"
    · rw [if_pos hst] at h
      simp at h
    · rw [if_neg hst] at h
      cases deadline with
      | none => simp at h
      | some d =>
        by_cases h1 : d < s.now1 <;> by_cases h2 : d - s.now2 ≤ 0 <;>
          simp [h1, h2] at h

theorem pollLoop_clean_no_error (deadline : Option Int) (interval : Int) :
    ∀ steps : List PollStep,
      (∀ s ∈ steps, (∀ e, s.result ≠ .fail e) ∧ s.cancelled = false) →
      ∀ er, pollLoop deadline interval steps ≠ some (.error er) := by
  intro steps
  induction steps with
  | nil => intro _ er h; simp [pollLoop] at h
  | cons s rest ih =>
    intro hclean er h
    have hs := hclean s (List.mem_cons_self _ _)
    have hrest := fun x hx => hclean x (List.mem_cons_of_mem _ hx)
    rw [pollLoop] at h
    cases hiter : pollIter deadline interval s with
    | done r =>
      rw [hiter] at h
      have hr : r = .error er := by simpa using h
      exact pollIter_clean_not_error deadline interval hs.1 hs.2 er (hr ▸ hiter)
    | sleep d =>
      rw [hiter] at h
      exact ih hrest er h

theorem pollLoop_none_processing (interval : Int) :
    ∀ steps : List PollStep,
      (∀ s ∈ steps,
        (∃ r, s.result = .ok r ∧ r.build.status = "processing")
        ∧ s.cancelled = false) →
      pollLoop none interval steps = none := by
  intro steps
  induction steps with
  | nil => intro _; rfl
  | cons s rest ih =>
    intro hsteps
    obtain ⟨⟨r, hres, hproc⟩, hnc⟩ := hsteps s (List.mem_cons_self _ _)
    rw [pollLoop, pollIter_processing_sleep interval hres hproc hnc]
    exact ih (fun x hx => hsteps x (List.mem_cons_of_mem _ hx))

/- ------------------------------------------------------------------ -/
/- Fixture values used by the concrete witnesses below. -/

def sampleAppcast : Appcast :=
  { feedURL := "https://example.com/feed.xml"
    message := "waiting on manual update"
    publishedAt := none
    status := "waiting_manual"
    url := none }

def sampleResp (status : String) : BuildResponse :=
  { appcast := sampleAppcast
    build :=
      { buildNumber := some "1"
        id := 11
        metadata := none
        status := status
        updatedAt := "2026-01-15T10:29:00Z"
        version := some "1.0.0" }
    pollAfterMs := none }

def sampleStep (status : String) : PollStep :=
  { result := .ok (sampleResp status), now1 := 0, now2 := 0, cancelled := false }

/-- C1: the poll loop returns any non-"processing" response immediately
and without error, whatever its status (including "failed" and unknown
forward-compatible values — the argument is an arbitrary status string);
only a "processing" response can make an iteration sleep and continue. -/
theorem c1_terminal_immediately (deadline : Option Int) (interval : Int)
    (step : PollStep) (rest : List PollStep) (resp : BuildResponse)
    (hres : step.result = .ok resp)
    (hst : resp.build.status ≠ "processing") :
    pollLoop deadline interval (step :: rest) = some (.ok resp)
    ∧ ∀ (s : PollStep) (d : Int),
        pollIter deadline interval s = .sleep d →
        ∃ r, s.result = .ok r ∧ r.build.status = "processing" := by
  constructor
  · rw [pollLoop, pollIter_terminal deadline interval hres hst]
  · intro s d hsleep
    cases hresS : s.result with
    | fail e =>
      rw [pollIter_fail deadline interval hresS] at hsleep
      simp at hsleep
    | ok r =>
      by_cases hrst : r.build.status = "processing"
      · exact ⟨r, rfl, hrst⟩
      · rw [pollIter_terminal deadline interval hresS hrst] at hsleep
        simp at hsleep

/-- C1 witness: a response with an unknown forward-compatible status is
returned at once, even under a long-elapsed deadline. -/
theorem c1_witness :
    pollLoop (some (-1000)) 5000000000 [sampleStep "someday-new-status"]
      = some (.ok (sampleResp "someday-new-status")) :=
  (c1_terminal_immediately (some (-1000)) 5000000000
    (sampleStep "someday-new-status") [] (sampleResp "someday-new-status")
    rfl (by decide)).1

/-- C2: the poll loop errs exactly on query failure or cancellation:
a set, elapsed deadline returns the last "processing" response with no
error; steps free of query failures and cancellations never produce an
error result; a non-positive timeout sets no deadline, and with every
query still "processing" the loop keeps polling through all supplied
steps; a failing query aborts with its failure; a cancellation during
the sleep aborts with the cancellation failure. -/
theorem c2_error_iff_query_or_cancel (interval now0 d : Int)
    (deadline : Option Int)
    (step : PollStep) (rest : List PollStep) (resp : BuildResponse)
    (steps₁ steps₂ : List PollStep)
    (hres : step.result = .ok resp)
    (hproc : resp.build.status = "processing")
    (helapsed : d < step.now1)
    (hclean₁ : ∀ s ∈ steps₁, (∀ e, s.result ≠ .fail e) ∧ s.cancelled = false)
    (hproc₂ : ∀ s ∈ steps₂,
      (∃ r, s.result = .ok r ∧ r.build.status = "processing")
      ∧ s.cancelled = false) :
    pollLoop (some d) interval (step :: rest) = some (.ok resp)
    ∧ (∀ er, pollLoop deadline interval steps₁ ≠ some (.error er))
    ∧ pollBuildStatus now0 0 interval steps₂ = pollLoop none interval steps₂
    ∧ pollBuildStatus now0 0 interval steps₂ = none
    ∧ (∀ e (s₂ : PollStep) rest₂, s₂.result = .fail e →
        pollLoop deadline interval (s₂ :: rest₂) = some (.error (.queryFailed e)))
    ∧ (∀ (s₃ : PollStep) rest₃ r₃, s₃.result = .ok r₃ →
        r₃.build.status = "processing" → s₃.cancelled = true →
        pollLoop none interval (s₃ :: rest₃) = some (.error .ctxCancelled)) := by
  refine ⟨?_, ?_, ?_, ?_, ?_, ?_⟩
  · rw [pollLoop, pollIter_elapsed interval hres hproc helapsed]
  · exact pollLoop_clean_no_error deadline interval steps₁ hclean₁
  · rfl
  · exact pollLoop_none_processing interval steps₂ hproc₂
  · intro e s₂ rest₂ hfail
    rw [pollLoop, pollIter_fail deadline interval hfail]
  · intro s₃ rest₃ r₃ hres₃ hproc₃ hc₃
    rw [pollLoop, pollIter_cancelled_none interval hres₃ hproc₃ hc₃]

/-- C2 witness: with the deadline at 0 already behind the clock reading,
a still-"processing" response is returned as a success. -/
theorem c2_witness :
    pollLoop (some 0) 5000000000
      [{ result := .ok (sampleResp "processing"), now1 := 1, now2 := 1,
         cancelled := false }]
      = some (.ok (sampleResp "processing")) :=
  (c2_error_iff_query_or_cancel 5000000000 0 0 none
    { result := .ok (sampleResp "processing"), now1 := 1, now2 := 1,
      cancelled := false }
    [] (sampleResp "processing") [] [] rfl rfl (by decide)
    (by intro s hs; simp at hs) (by intro s hs; simp at hs)).1

/-- C3: whenever an iteration continues, its sleep duration is the
server-supplied PollAfterMs (scaled from milliseconds) when present and
strictly positive and the nominal interval otherwise, clamped — when a
deadline exists — to the time remaining until the deadline. -/
theorem c3_sleep_duration (deadline : Option Int) (interval : Int)
    (s : PollStep) (d : Int)
    (hsleep : pollIter deadline interval s = .sleep d) :
    ∃ resp, s.result = .ok resp
      ∧ (deadline = none → d = desiredWait resp interval)
      ∧ (∀ dd, deadline = some dd →
          d = min (desiredWait resp interval) (dd - s.now2)
          ∧ d ≤ dd - s.now2) := by
  cases hres : s.result with
  | fail e =>
    rw [pollIter_fail deadline interval hres] at hsleep
    simp at hsleep
  | ok resp =>
    by_cases hst : resp.build.status = "processing"
    · refine ⟨resp, rfl, ?_, ?_⟩
      · intro hdl
        subst hdl
        cases hc : s.cancelled with
        | true =>
          rw [pollIter_cancelled_none interval hres hst hc] at hsleep
          simp at hsleep
        | false =>
          rw [pollIter_processing_sleep interval hres hst hc] at hsleep
          simpa using hsleep.symm
      · intro dd hdl
        subst hdl
        by_cases h1 : dd < s.now1 <;> by_cases h2 : dd - s.now2 ≤ 0 <;>
          cases hc : s.cancelled <;>
            simp [pollIter, hres, hst, h1, h2, hc] at hsleep
        by_cases h3 : dd - s.now2 < desiredWait resp interval
        · rw [if_pos h3] at hsleep
          constructor
          · rw [← hsleep]
            exact (min_eq_right (le_of_lt h3)).symm
          · omega
        · rw [if_neg h3] at hsleep
          constructor
          · rw [← hsleep]
            exact (min_eq_left (by omega)).symm
          · omega
    · rw [pollIter_terminal deadline interval hres hst] at hsleep
      simp at hsleep

/-- C3 witness: a server hint PollAfterMs = 100 yields a 100 ms sleep,
with the nominal 5 s interval ignored and the distant deadline not
binding. -/
theorem c3_witness :
    ∃ resp,
      (PollStep.mk (.ok { sampleResp "processing" with pollAfterMs := some 100 })
        0 0 false).result = .ok resp
      ∧ ((some 1000000000000 : Option Int) = none →
          (100000000 : Int) = desiredWait resp 5000000000)
      ∧ (∀ dd, (some 1000000000000 : Option Int) = some dd →
          (100000000 : Int) = min (desiredWait resp 5000000000) (dd - (0 : Int))
          ∧ (100000000 : Int) ≤ dd - (0 : Int)) :=
  c3_sleep_duration (some 1000000000000) 5000000000
    (PollStep.mk (.ok { sampleResp "processing" with pollAfterMs := some 100 })
      0 0 false)
    100000000 (by rfl)

/-- C9: a status query is always issued before the deadline is consulted:
with no step supplied the loop decides nothing, and whatever the timeout
(even one whose deadline already lies in the past at entry), the first
query's outcome is decisive — a non-"processing" response is returned as
a success and a query failure is returned as that failure. -/
theorem c9_query_before_deadline (now0 timeoutSeconds interval : Int)
    (deadline : Option Int) (step : PollStep) (rest : List PollStep) :
    pollLoop deadline interval [] = none
    ∧ (∀ resp, step.result = .ok resp → resp.build.status ≠ "processing" →
        pollBuildStatus now0 timeoutSeconds interval (step :: rest)
          = some (.ok resp))
    ∧ (∀ e, step.result = .fail e →
        pollLoop deadline interval (step :: rest)
          = some (.error (.queryFailed e))) := by
  refine ⟨rfl, ?_, ?_⟩
  · intro resp hres hst
    unfold pollBuildStatus
    rw [pollLoop, pollIter_terminal _ interval hres hst]
  · intro e hfail
    rw [pollLoop, pollIter_fail deadline interval hfail]

/-- C9 witness: the deadline (1 s) is already elapsed at the first
iteration's clock reading (5 s), yet the available response from the
first query is returned as a success. -/
theorem c9_witness :
    pollBuildStatus 0 1 5000000000
      [{ result := .ok (sampleResp "available"), now1 := 5000000000,
         now2 := 5000000000, cancelled := false }]
      = some (.ok (sampleResp "available")) :=
  (c9_query_before_deadline 0 1 5000000000 none
    { result := .ok (sampleResp "available"), now1 := 5000000000,
      now2 := 5000000000, cancelled := false } []).2.1
    (sampleResp "available") rfl (by decide)

/-- C8: BuildID decoding accepts both the quoted string "42" and the bare
integer 42, both yielding 42; marshalling always emits the bare integer
token, so decode-then-encode of any quoted numeric input yields the
unquoted integer form. -/
theorem c8_buildid_roundtrip :
    buildIDUnmarshal (.str "42") 0 = .ok 42
    ∧ buildIDUnmarshal (.num "42") 0 = .ok 42
    ∧ (∀ v : Int, buildIDMarshal v = .num (toString v))
    ∧ (∀ s cur v, buildIDUnmarshal (.str s) cur = .ok v →
        ∃ lit, buildIDMarshal v = .num lit) :=
  ⟨rfl, rfl, fun _ => rfl, fun _ _ v _ => ⟨toString v, rfl⟩⟩

/-- C8 witness: decoding the quoted "42" and re-encoding gives a bare
integer token. -/
theorem c8_witness : ∃ lit, buildIDMarshal 42 = JsonTok.num lit :=
  c8_buildid_roundtrip.2.2.2 "42" 0 42 rfl

/- ------------------------------------------------------------------ -/
/- The normalizer claims. -/

instance : IsTotal (String × JValue) (fun a b => a.1 ≤ b.1) :=
  ⟨fun a b => le_total a.1 b.1⟩

instance : IsTrans (String × JValue) (fun a b => a.1 ≤ b.1) :=
  ⟨fun _ _ _ h₁ h₂ => le_trans h₁ h₂⟩

theorem collectSeq_eq_flatMap (l : List JValue) (path : String) :
    collectSeq l path = l.flatMap (fun v => collectProcessingErrors v path) := by
  induction l with
  | nil => simp [collectSeq]
  | cons v rest ih => simp [collectSeq, ih]

theorem collectSortedFields_eq_keys (fields : List (String × JValue))
    (path : String) :
    ∀ l : List (String × JValue),
      (∀ kv ∈ l, lookupField fields kv.1 = some kv.2) →
      collectSortedFields l path =
        (l.map Prod.fst).flatMap (fun k =>
          match lookupField fields k with
          | some v => collectProcessingErrors v (dotJoin path k)
          | none => []) := by
  intro l
  induction l with
  | nil => intro _; simp [collectSortedFields]
  | cons kv rest ih =>
    intro hl
    obtain ⟨k, v⟩ := kv
    have hk : lookupField fields k = some v := hl (k, v) (List.mem_cons_self _ _)
    have ihr := ih (fun x hx => hl x (List.mem_cons_of_mem _ hx))
    simp [collectSortedFields, hk, ihr]

theorem mem_objKeys_of_lookup {k : String} {v : JValue} :
    ∀ {l : List (String × JValue)}, lookupField l k = some v → k ∈ objKeys l := by
  intro l
  induction l using dedupFields.induct with
  | case1 => intro h; simp [lookupField] at h
  | case2 kv' rest ih =>
    obtain ⟨k', v'⟩ := kv'
    intro h
    by_cases hk : k' = k
    · subst hk
      simp [objKeys, dedupFields]
    · simp only [lookupField, if_neg hk] at h
      have h2 : lookupField (rest.filter (fun p => p.1 != k')) k = some v := by
        rw [lookupField_filter_ne (fun he => hk he.symm) rest]
        exact h
      have := ih h2
      simp only [objKeys, dedupFields, List.map_cons]
      exact List.mem_cons_of_mem _ this

/-- C6 counterexample: a mapping whose string "step" entry is empty emits
the bare message — not the "<step>: <message>" form the claim prescribes
whenever a string "step" key co-exists. -/
theorem c6_counterexample :
    collectProcessingErrors
        (.obj [("message", .str "m"), ("step", .str "")]) "" = ["m"]
    ∧ (["m"] : List String) ≠ [": " ++ "m"] := by
  constructor
  · rw [@collect_obj_shortcut [("message", .str "m"), ("step", .str "")] "m" "" rfl]
    rfl
  · decide

/-- C6 (amended): the normalizer flattens by structural recursion —
a mapping carrying a string "message" emits "<step>: <message>" when a
NON-EMPTY string "step" co-exists and the bare message otherwise (an
empty-string step behaves as an absent one), never recursing further;
any other mapping is traversed with its distinct keys in ascending
sorted order, the accumulated path extended by a dot; a sequence is
traversed element-wise under the unchanged path; a scalar emits
"<path>: <scalar>" under a non-empty path and the bare rendering
otherwise. -/
theorem c6_normalizer_rules (path : String) :
    (∀ v r, scalarRepr v = some r →
      collectProcessingErrors v path
        = if path = "" then [r] else [path ++ ": " ++ r])
    ∧ (∀ fields m, lookupField fields "message" = some (.str m) →
        collectProcessingErrors (.obj fields) path =
          match lookupField fields "step" with
          | some (.str step) => if step = "" then [m] else [step ++ ": " ++ m]
          | _ => [m])
    ∧ (∀ fields, (∀ m, lookupField fields "message" ≠ some (.str m)) →
        ∃ ks : List String, List.Sorted (· ≤ ·) ks
          ∧ ks.Perm (objKeys fields)
          ∧ collectProcessingErrors (.obj fields) path =
              ks.flatMap (fun k =>
                match lookupField fields k with
                | some v => collectProcessingErrors v (dotJoin path k)
                | none => []))
    ∧ (∀ items, collectProcessingErrors (.arr items) path =
        items.flatMap (fun v => collectProcessingErrors v path)) := by
  refine ⟨?_, ?_, ?_, ?_⟩
  · intro v r hr
    cases v with
    | str s =>
      have hs : s = r := by simpa [scalarRepr] using hr
      subst hs
      simp [collectProcessingErrors, emitLeaf]
    | num n =>
      have hs : toString n = r := by simpa [scalarRepr] using hr
      subst hs
      simp [collectProcessingErrors, emitLeaf]
    | bool b =>
      have hs : (if b then "true" else "false") = r := by
        simpa [scalarRepr] using hr
      subst hs
      simp [collectProcessingErrors, emitLeaf]
    | null =>
      have hs : "<nil>" = r := by simpa [scalarRepr] using hr
      subst hs
      simp [collectProcessingErrors, emitLeaf]
    | arr items => simp [scalarRepr] at hr
    | obj fields => simp [scalarRepr] at hr
  · intro fields m hm
    exact collect_obj_shortcut path hm
  · intro fields hm
    refine ⟨(sortFields (dedupFields fields)).map Prod.fst, ?_, ?_, ?_⟩
    · have hp : List.Pairwise (fun a b : String × JValue => a.1 ≤ b.1)
          (sortFields (dedupFields fields)) :=
        List.sorted_insertionSort _ _
      exact List.Pairwise.map _ (fun a b hab => hab) hp
    · exact (List.perm_insertionSort _ _).map _
    · rw [collect_obj_ordinary path hm]
      exact collectSortedFields_eq_keys fields path _
        (fun kv hkv => lookupField_of_mem_dedupFields (mem_of_mem_sortFields hkv))
  · intro items
    have harr : collectProcessingErrors (.arr items) path = collectSeq items path := by
      simp [collectProcessingErrors]
    rw [harr]
    exact collectSeq_eq_flatMap items path

/-- C6 witness: a message node with a non-empty step emits the combined
line. -/
theorem c6_witness :
    collectProcessingErrors
        (.obj [("message", .str "invalid bundle"), ("step", .str "version")]) ""
      = ["version: invalid bundle"] :=
  ((c6_normalizer_rules "").2.1
    [("message", .str "invalid bundle"), ("step", .str "version")]
    "invalid bundle" rfl).trans (by rfl)

/-- C10: the message shortcut fires only when the value under "message"
is a string, and then the accumulated path is discarded (the emitted line
is the same under every path); a mapping whose "message" entry is not a
string is traversed as an ordinary mapping, its sorted distinct keys —
"message" among them — all recursed into. -/
theorem c10_nonstring_message (path₁ path₂ : String) :
    (∀ fields m, lookupField fields "message" = some (.str m) →
      collectProcessingErrors (.obj fields) path₁
        = collectProcessingErrors (.obj fields) path₂)
    ∧ (∀ fields v, lookupField fields "message" = some v →
        (∀ s, v ≠ .str s) →
        collectProcessingErrors (.obj fields) path₁
          = collectSortedFields (sortFields (dedupFields fields)) path₁
        ∧ "message" ∈ objKeys fields) := by
  constructor
  · intro fields m hm
    rw [collect_obj_shortcut path₁ hm, collect_obj_shortcut path₂ hm]
  · intro fields v hv hnstr
    have hm : ∀ m, lookupField fields "message" ≠ some (.str m) := by
      intro m hcon
      rw [hv] at hcon
      exact hnstr m (Option.some.inj hcon)
    exact ⟨collect_obj_ordinary path₁ hm, mem_objKeys_of_lookup hv⟩

/-- C10 witness: a numeric "message" value defeats the shortcut; the
mapping is traversed ordinarily and "message" is among the traversed
keys. -/
theorem c10_witness :
    collectProcessingErrors (.obj [("message", .num 7), ("extra", .str "x")]) ""
      = collectSortedFields
          (sortFields (dedupFields [("message", .num 7), ("extra", .str "x")])) ""
    ∧ "message" ∈ objKeys [("message", .num 7), ("extra", .str "x")] :=
  (c10_nonstring_message "" "x").2 _ (.num 7) rfl (fun _ h => JValue.noConfusion h)

/- ------------------------------------------------------------------ -/
/- The renderer claims. -/

theorem isDiag_buildHeader (b : Build) : isDiag (buildHeader b) = false := by
  unfold buildHeader
  split
  · exact isDiag_false_of_third rfl (by decide) _
  · split
    · exact isDiag_false_of_third rfl (by decide) _
    · exact isDiag_false_of_third rfl (by decide) _

theorem diagLines_verbose (b : Build) : diagLines (verboseBuildLines b) = [] := by
  have hA : ∀ s, isDiag ("  Version: " ++ s) = false :=
    fun s => isDiag_false_of_third rfl (by decide) s
  have hB : ∀ s, isDiag ("  Build Number: " ++ s) = false :=
    fun s => isDiag_false_of_third rfl (by decide) s
  have hC : ∀ s, isDiag ("  Updated: " ++ s) = false :=
    fun s => isDiag_false_of_third rfl (by decide) s
  have hD : ∀ s, isDiag ("  Metadata:" ++ s) = false :=
    fun s => isDiag_false_of_third rfl (by decide) s
  have hE : ∀ s, isDiag ("    Build Version: " ++ s) = false :=
    fun s => isDiag_false_of_third rfl (by decide) s
  have hF : ∀ s, isDiag ("    Build Number: " ++ s) = false :=
    fun s => isDiag_false_of_third rfl (by decide) s
  have hG : ∀ s, isDiag ("    Build Size: " ++ s) = false :=
    fun s => isDiag_false_of_third rfl (by decide) s
  have hH : ∀ s, isDiag ("    Minimum System: " ++ s) = false :=
    fun s => isDiag_false_of_third rfl (by decide) s
  have hI : ∀ s, isDiag ("    Signature: " ++ s) = false :=
    fun s => isDiag_false_of_third rfl (by decide) s
  have hJ : ∀ s, isDiag ("    Processing Errors: " ++ s) = false :=
    fun s => isDiag_false_of_third rfl (by decide) s
  have hmemOpt : ∀ {label : String},
      (∀ s, isDiag (label ++ s) = false) →
      ∀ {a : String} {o : Option String}, a ∈ optLine label o →
        isDiag a = false := by
    intro label hlab a o h
    cases o with
    | none => simp [optLine] at h
    | some v =>
      simp [optLine] at h
      rw [h]
      exact hlab v
  unfold diagLines
  rw [List.filter_eq_nil_iff]
  intro a ha
  unfold verboseBuildLines at ha
  cases hmd : b.metadata with
  | none =>
    rw [hmd] at ha
    simp only [List.append_nil, List.mem_cons, List.not_mem_nil, or_false] at ha
    rcases ha with rfl | rfl | rfl
    · simp [hA]
    · simp [hB]
    · simp [hC]
  | some m =>
    rw [hmd] at ha
    rcases List.mem_append.mp ha with h3 | hrest
    · simp only [List.mem_cons, List.not_mem_nil, or_false] at h3
      rcases h3 with rfl | rfl | rfl
      · simp [hA]
      · simp [hB]
      · simp [hC]
    · rcases List.mem_cons.mp hrest with rfl | hrest2
      · decide
      · rcases List.mem_append.mp hrest2 with h | hpeLine
        · rcases List.mem_append.mp h with h | hsig
          · rcases List.mem_append.mp h with h | hmin
            · rcases List.mem_append.mp h with h | hsize
              · rcases List.mem_append.mp h with hbv | hbn
                · simp [hmemOpt hE hbv]
                · simp [hmemOpt hF hbn]
              · simp [hmemOpt hG hsize]
            · simp [hmemOpt hH hmin]
          · simp [hmemOpt hI hsig]
        · by_cases hpe : m.processingErrors.isEmpty = true
          · rw [if_pos hpe] at hpeLine
            simp at hpeLine
          · rw [if_neg hpe] at hpeLine
            simp only [List.mem_cons, List.not_mem_nil, or_false] at hpeLine
            rw [hpeLine]
            simp [hJ]

theorem diagLines_failedDiag (md : Option BuildMetadata) :
    diagLines (failedDiagLines md) = failedDiagLines md := by
  unfold diagLines
  rw [List.filter_eq_self]
  intro l hl
  unfold failedDiagLines at hl
  cases md with
  | none => simp at hl
  | some m =>
    by_cases hpe : m.processingErrors.isEmpty
    · simp [hpe] at hl
    · simp only [hpe, Bool.false_eq_true, if_false, List.mem_map] at hl
      obtain ⟨x, _, hlx⟩ := hl
      rw [← hlx]
      simp [isDiag_errorDetail]

/-- On a failed build the rendered diagnostic lines are exactly the
failed-branch ErrorDetail lines: nothing else the renderer prints carries
the diagnostic marker. -/
theorem diagLines_print_failed (resp : BuildResponse) (verbose : Bool)
    (hf : resp.build.status = "failed") :
    diagLines (printBuildResponse resp verbose)
      = failedDiagLines resp.build.metadata := by
  unfold printBuildResponse diagLines
  rw [if_pos hf, List.filter_append, List.filter_append]
  have h1 : List.filter (fun l => isDiag l) [buildHeader resp.build] = [] := by
    simp [isDiag_buildHeader]
  have h2 : List.filter (fun l => isDiag l)
      (if verbose then verboseBuildLines resp.build else []) = [] := by
    cases verbose
    · simp
    · simpa [diagLines] using diagLines_verbose resp.build
  have h3 : List.filter (fun l => isDiag l)
      (failedDiagLines resp.build.metadata)
      = failedDiagLines resp.build.metadata := by
    simpa [diagLines] using diagLines_failedDiag resp.build.metadata
  rw [h1, h2, h3]
  rfl

/-- A tree with no leaves has an empty traversal and vice versa. -/
theorem leafCount_obj_nil : leafCount (.obj []) = 0 := by
  simp [leafCount, lookupField, dedupFields, leafCountFields]

def cex4 : BuildResponse :=
  { appcast := sampleAppcast
    build :=
      { buildNumber := none
        id := 11
        metadata := some
          { buildVersion := none, buildNumber := none, buildSize := none,
            minimumSystemVersion := none,
            processingErrors := [("a", .obj [])], signature := none }
        status := "failed"
        updatedAt := "2026-01-15T10:29:00Z"
        version := none }
    pollAfterMs := none }

/-- C4 counterexample: a failed build whose non-empty error tree
{"a": {}} has no leaves still renders one diagnostic line (the sentinel),
so the rendering does not contain one line per leaf. -/
theorem c4_counterexample :
    leafCount (.obj [("a", JValue.obj [])]) = 0
    ∧ diagLines (printBuildResponse cex4 false) = ["  ↳ " ++ "unknown error"] := by
  constructor
  · simp [leafCount, lookupField, dedupFields, leafCountFields,
      leafCount_obj_nil, List.filter]
  · rw [diagLines_print_failed cex4 false rfl]
    have hcol : collectProcessingErrors (.obj [("a", JValue.obj [])]) "" = [] := by
      rw [collect_obj_ordinary "" (by intro m h; exact Option.noConfusion h)]
      have hd : dedupFields [("a", JValue.obj [])] = [("a", JValue.obj [])] := by
        simp [dedupFields]
      rw [hd]
      have hs : sortFields [("a", JValue.obj [])] = [("a", JValue.obj [])] := rfl
      rw [hs]
      simp only [collectSortedFields]
      rw [collect_obj_ordinary _ (by intro m h; exact Option.noConfusion h)]
      simp [dedupFields, sortFields, collectSortedFields]
    show failedDiagLines cex4.build.metadata = _
    simp [failedDiagLines, cex4, formatProcessingErrors, hcol]

/-- C4 (amended): a failed build renders no appcast narrative at all (the
rendering does not depend on the appcast component), and renders one
normalized diagnostic line per leaf whenever the error tree has at least
one leaf; a present non-empty tree with no leaves yields the single
sentinel diagnostic line, and an absent metadata or empty tree yields no
diagnostic lines. -/
theorem c4_failed_render (resp : BuildResponse) (verbose : Bool)
    (hf : resp.build.status = "failed") :
    (∀ a, printBuildResponse (withAppcast resp a) verbose
        = printBuildResponse resp verbose)
    ∧ (∀ md, resp.build.metadata = some md →
        (0 < leafCount (.obj md.processingErrors) →
          (diagLines (printBuildResponse resp verbose)).length
            = leafCount (.obj md.processingErrors))
        ∧ (md.processingErrors ≠ [] →
            collectProcessingErrors (.obj md.processingErrors) "" = [] →
            diagLines (printBuildResponse resp verbose)
              = ["  ↳ " ++ "unknown error"])
        ∧ (md.processingErrors = [] →
            diagLines (printBuildResponse resp verbose) = []))
    ∧ (resp.build.metadata = none →
        diagLines (printBuildResponse resp verbose) = []) := by
  have hD := diagLines_print_failed resp verbose hf
  refine ⟨?_, ?_, ?_⟩
  · intro a
    unfold printBuildResponse withAppcast
    simp [hf]
  · intro md hmd
    refine ⟨?_, ?_, ?_⟩
    · intro hleaf
      rw [hD, hmd]
      have hne : md.processingErrors.isEmpty = false := by
        cases hpe : md.processingErrors with
        | nil =>
          rw [hpe] at hleaf
          rw [leafCount_obj_nil] at hleaf
          omega
        | cons x xs => rfl
      simp only [failedDiagLines]
      rw [hne]
      simp only [Bool.false_eq_true, if_false, List.length_map]
      have hcl := length_collectProcessingErrors (.obj md.processingErrors) ""
      have hcoll_ne : (collectProcessingErrors (.obj md.processingErrors) "").isEmpty = false := by
        cases hcc : collectProcessingErrors (.obj md.processingErrors) "" with
        | nil =>
          rw [hcc] at hcl
          simp at hcl
          omega
        | cons y ys => rfl
      simp only [formatProcessingErrors]
      rw [hcoll_ne]
      simpa using hcl
    · intro hne hcol
      rw [hD, hmd]
      have hne' : md.processingErrors.isEmpty = false := by
        cases hpe : md.processingErrors with
        | nil => exact absurd hpe hne
        | cons x xs => rfl
      simp only [failedDiagLines]
      rw [hne']
      simp only [Bool.false_eq_true, if_false]
      simp only [formatProcessingErrors]
      rw [hcol]
      rfl
    · intro hpe
      rw [hD, hmd]
      simp only [failedDiagLines]
      rw [hpe]
      rfl
  · intro hmd
    rw [hD, hmd]
    rfl

def cexW4 : BuildResponse :=
  { appcast := sampleAppcast
    build :=
      { buildNumber := none
        id := 11
        metadata := some
          { buildVersion := none, buildNumber := none, buildSize := none,
            minimumSystemVersion := none,
            processingErrors := [("signing", .str "missing signature")],
            signature := none }
        status := "failed"
        updatedAt := "2026-01-15T10:29:00Z"
        version := none }
    pollAfterMs := none }

/-- C4 witness: a failed build with a one-leaf tree renders exactly one
diagnostic line. -/
theorem c4_witness :
    (diagLines (printBuildResponse cexW4 false)).length
      = leafCount (.obj [("signing", JValue.str "missing signature")]) :=
  ((c4_failed_render cexW4 false rfl).2.1 _ rfl).1
    (by
      have h := length_collectProcessingErrors
        (.obj [("signing", JValue.str "missing signature")]) ""
      rw [← h]
      rw [collect_obj_ordinary "" (by intro m hm; exact Option.noConfusion hm)]
      have hd : dedupFields [("signing", JValue.str "missing signature")]
          = [("signing", JValue.str "missing signature")] := by
        simp [dedupFields]
      rw [hd]
      show 0 < (collectSortedFields
        [("signing", JValue.str "missing signature")] "").length
      have hc : collectSortedFields
          [("signing", JValue.str "missing signature")] ""
          = ["signing" ++ ": " ++ "missing signature"] := by
        simp only [collectSortedFields]
        rw [show dotJoin "" "signing" = "signing" from rfl]
        simp only [collectProcessingErrors, emitLeaf]
        rw [if_neg (by decide)]
        rfl
      rw [hc]
      simp)

def cex5 : BuildResponse :=
  { appcast :=
      { feedURL := "https://example.com/appcast.xml"
        message := "Feed regenerated"
        publishedAt := none
        status := "published"
        url := none }
    build :=
      { buildNumber := none
        id := 7
        metadata := none
        status := "processing"
        updatedAt := "2026-01-15T10:29:00Z"
        version := none }
    pollAfterMs := none }

/-- C5 counterexample: a "processing" response whose appcast is already
"published" renders the appcast publication line, so the rendering of a
processing build can surface a populated appcast publication message. -/
theorem c5_counterexample :
    ("✓ Feed updated: " ++ "https://example.com/appcast.xml")
      ∈ printBuildResponse cex5 false := by
  decide

theorem head_append {a : String} {c : Char} {ta : List Char}
    (hda : a.data = c :: ta) (s : String) : (a ++ s).data.head? = some c := by
  rw [String.data_append a s, hda]
  rfl

theorem mem_optLine {label : String} {o : Option String} {l : String}
    (h : l ∈ optLine label o) : ∃ s, l = label ++ s := by
  cases o with
  | none => simp [optLine] at h
  | some v =>
    simp [optLine] at h
    exact ⟨v, h⟩

/-- A line cannot both open with a non-blank character and with a blank. -/
theorem ne_of_head_mismatch {a : String} {c : Char} {ta : List Char}
    (hda : a.data = c :: ta) (s : String) {l : String}
    (hl : l.data.head? = some ' ') (hc : c ≠ ' ') : a ++ s ≠ l := by
  intro he
  rw [← he, head_append hda s] at hl
  exact hc (Option.some.inj hl)

/-- Every line of the verbose build-detail block opens with a blank. -/
theorem verboseBuildLines_head (b : Build) :
    ∀ l ∈ verboseBuildLines b, l.data.head? = some ' ' := by
  intro a ha
  unfold verboseBuildLines at ha
  cases hmd : b.metadata with
  | none =>
    rw [hmd] at ha
    simp only [List.append_nil, List.mem_cons, List.not_mem_nil, or_false] at ha
    rcases ha with rfl | rfl | rfl
    · exact head_append rfl _
    · exact head_append rfl _
    · exact head_append rfl _
  | some m =>
    rw [hmd] at ha
    rcases List.mem_append.mp ha with h3 | hrest
    · simp only [List.mem_cons, List.not_mem_nil, or_false] at h3
      rcases h3 with rfl | rfl | rfl
      · exact head_append rfl _
      · exact head_append rfl _
      · exact head_append rfl _
    · rcases List.mem_cons.mp hrest with rfl | hrest2
      · exact head_append rfl ""
      · rcases List.mem_append.mp hrest2 with h | hpeLine
        · rcases List.mem_append.mp h with h | hsig
          · rcases List.mem_append.mp h with h | hmin
            · rcases List.mem_append.mp h with h | hsize
              · rcases List.mem_append.mp h with hbv | hbn
                · obtain ⟨s, rfl⟩ := mem_optLine hbv
                  exact head_append rfl _
                · obtain ⟨s, rfl⟩ := mem_optLine hbn
                  exact head_append rfl _
              · obtain ⟨s, rfl⟩ := mem_optLine hsize
                exact head_append rfl _
            · obtain ⟨s, rfl⟩ := mem_optLine hmin
              exact head_append rfl _
          · obtain ⟨s, rfl⟩ := mem_optLine hsig
            exact head_append rfl _
        · by_cases hpe : m.processingErrors.isEmpty = true
          · rw [if_pos hpe] at hpeLine
            simp at hpeLine
          · rw [if_neg hpe] at hpeLine
            simp only [List.mem_cons, List.not_mem_nil, or_false] at hpeLine
            rw [hpeLine]
            exact head_append rfl _

/-- Every line of the verbose appcast-detail block opens with a blank. -/
theorem appcastTail_head (a : Appcast) :
    ∀ l ∈ (["  Message: " ++ a.message, "  Feed URL: " ++ a.feedURL]
        ++ optLine "  Published At: " a.publishedAt
        ++ optLine "  URL: " a.url), l.data.head? = some ' ' := by
  intro l hl
  rcases List.mem_append.mp hl with h | hurl
  · rcases List.mem_append.mp h with h | hpub
    · simp only [List.mem_cons, List.not_mem_nil, or_false] at h
      rcases h with rfl | rfl
      · exact head_append rfl _
      · exact head_append rfl _
    · obtain ⟨s, rfl⟩ := mem_optLine hpub
      exact head_append rfl _
  · obtain ⟨s, rfl⟩ := mem_optLine hurl
    exact head_append rfl _

/-- C5 (amended): the renderer suppresses the appcast narrative only for
failed builds; for a "processing" build, in every rendering mode, the
appcast section is rendered — the publication line appears exactly when
the appcast status is "published", and in verbose mode the appcast
message text is always printed. -/
theorem c5_processing_appcast (resp : BuildResponse) (verbose : Bool)
    (hp : resp.build.status = "processing") :
    (("✓ Feed updated: " ++ resp.appcast.feedURL) ∈ printBuildResponse resp verbose
      ↔ resp.appcast.status = "published")
    ∧ (verbose = true →
        ("  Message: " ++ resp.appcast.message) ∈ printBuildResponse resp verbose) := by
  have hnotfailed : ¬ (resp.build.status = "failed") := by rw [hp]; decide
  have hhdr : ("✓ Feed updated: " ++ resp.appcast.feedURL) ≠ buildHeader resp.build := by
    unfold buildHeader
    rw [hp]
    rw [if_neg (by decide), if_neg (by decide)]
    exact append_ne_of_head rfl rfl (by decide) _ _
  have hspace : ∀ l : String, l.data.head? = some ' ' →
      ("✓ Feed updated: " ++ resp.appcast.feedURL) ≠ l := fun l hl =>
    ne_of_head_mismatch rfl resp.appcast.feedURL hl (by decide)
  constructor
  · constructor
    · intro h
      unfold printBuildResponse at h
      rw [if_neg hnotfailed] at h
      rcases List.mem_append.mp h with h | happ
      · rcases List.mem_append.mp h with h | hverb
        · simp only [List.mem_singleton] at h
          exact absurd h hhdr
        · cases verbose with
          | false =>
            rw [if_neg (by decide)] at hverb
            simp at hverb
          | true =>
            rw [if_pos rfl] at hverb
            exact absurd rfl (hspace _ (verboseBuildLines_head resp.build _ hverb))
      · unfold appcastLines at happ
        rcases List.mem_append.mp happ with hhead | htail
        · simp only [List.mem_singleton] at hhead
          by_cases hpub : resp.appcast.status = "published"
          · exact hpub
          · exfalso
            rw [if_neg hpub] at hhead
            by_cases hw : resp.appcast.status = "waiting_manual"
            · rw [if_pos hw] at hhead
              exact append_ne_of_head rfl rfl (by decide) _ _ hhead
            · rw [if_neg hw] at hhead
              exact append_ne_of_head rfl rfl (by decide) _ _ hhead
        · cases verbose with
          | false =>
            rw [if_neg (by decide)] at htail
            simp at htail
          | true =>
            rw [if_pos rfl] at htail
            exact absurd rfl (hspace _ (appcastTail_head resp.appcast _ htail))
    · intro hpub
      unfold printBuildResponse
      rw [if_neg hnotfailed]
      apply List.mem_append.mpr
      right
      unfold appcastLines
      apply List.mem_append.mpr
      left
      simp only [List.mem_singleton]
      rw [if_pos hpub]
  · intro hv
    subst hv
    unfold printBuildResponse
    rw [if_neg hnotfailed]
    apply List.mem_append.mpr
    right
    unfold appcastLines
    apply List.mem_append.mpr
    right
    rw [if_pos rfl]
    apply List.mem_append.mpr
    left
    apply List.mem_append.mpr
    left
    exact List.mem_cons_self _ _

/-- C5 witness: the amended characterization at the concrete processing
response with a published appcast, in the verbose rendering mode. -/
theorem c5_witness :
    ("✓ Feed updated: " ++ cex5.appcast.feedURL) ∈ printBuildResponse cex5 true :=
  ((c5_processing_appcast cex5 true rfl).1).mpr rfl

def cex7 : BuildResponse :=
  { appcast := sampleAppcast
    build :=
      { buildNumber := none
        id := 11
        metadata := some
          { buildVersion := none, buildNumber := none, buildSize := none,
            minimumSystemVersion := none,
            processingErrors := [], signature := none }
        status := "failed"
        updatedAt := "2026-01-15T10:29:00Z"
        version := none }
    pollAfterMs := none }

/-- C7 counterexample: a failed build carrying metadata whose error tree
is present but empty renders zero diagnostic lines — not the sentinel. -/
theorem c7_counterexample :
    diagLines (printBuildResponse cex7 false) = [] := by
  rw [diagLines_print_failed cex7 false rfl]
  rfl

/-- C7 (amended): a failed build with a non-empty error tree that
flattens to zero lines renders exactly the sentinel diagnostic line; a
present-but-empty tree is skipped by the renderer and yields zero
diagnostic lines; the normalizer itself never returns an empty list and
returns exactly the sentinel for an empty tree. -/
theorem c7_sentinel (resp : BuildResponse) (verbose : Bool)
    (md : BuildMetadata) (hf : resp.build.status = "failed")
    (hmd : resp.build.metadata = some md) :
    (md.processingErrors ≠ [] →
      collectProcessingErrors (.obj md.processingErrors) "" = [] →
      diagLines (printBuildResponse resp verbose) = ["  ↳ " ++ "unknown error"])
    ∧ (md.processingErrors = [] →
        diagLines (printBuildResponse resp verbose) = [])
    ∧ (∀ pe, formatProcessingErrors pe ≠ [])
    ∧ formatProcessingErrors [] = ["unknown error"] := by
  have hD := diagLines_print_failed resp verbose hf
  refine ⟨?_, ?_, ?_, ?_⟩
  · intro hne hcol
    rw [hD, hmd]
    have hne' : md.processingErrors.isEmpty = false := by
      cases hpe : md.processingErrors with
      | nil => exact absurd hpe hne
      | cons x xs => rfl
    simp only [failedDiagLines]
    rw [hne']
    simp only [Bool.false_eq_true, if_false]
    simp only [formatProcessingErrors]
    rw [hcol]
    rfl
  · intro hpe
    rw [hD, hmd]
    simp only [failedDiagLines]
    rw [hpe]
    rfl
  · intro pe
    simp only [formatProcessingErrors]
    split
    · simp
    · rename_i hne2
      intro hcon
      rw [hcon] at hne2
      simp at hne2
  · simp only [formatProcessingErrors]
    have hcol0 : collectProcessingErrors (.obj []) "" = [] := by
      rw [collect_obj_ordinary "" (fun m h => Option.noConfusion h)]
      simp [dedupFields, sortFields, collectSortedFields]
    rw [hcol0]
    rfl

/-- C7 witness: the sentinel appears for a non-empty leafless tree on a
failed build. -/
theorem c7_witness :
    diagLines (printBuildResponse cex4 false) = ["  ↳ " ++ "unknown error"] :=
  (c7_sentinel cex4 false
      { buildVersion := none, buildNumber := none, buildSize := none,
        minimumSystemVersion := none,
        processingErrors := [("a", .obj [])], signature := none }
      rfl rfl).1
    (by simp)
    (by
      rw [collect_obj_ordinary "" (by intro m h; exact Option.noConfusion h)]
      have hd : dedupFields [("a", JValue.obj [])] = [("a", JValue.obj [])] := by
        simp [dedupFields]
      rw [hd]
      have hs : sortFields [("a", JValue.obj [])] = [("a", JValue.obj [])] := rfl
      rw [hs]
      simp only [collectSortedFields]
      rw [collect_obj_ordinary _ (by intro m h; exact Option.noConfusion h)]
      simp [dedupFields, sortFields, collectSortedFields])

end TwinkleCLI
